import Mathlib

deriving instance DecidableEq for Except

/-!
Verification of the User CRUD core: domain aggregate (`NewUser`, `ChangeName`,
`ChangeEmail`, `Delete`, `SetID`, `IncreaseVersion`), the Postgres-backed
storage adapter (`Create`, `Update`, `GetByID`, `GetByEmail`, `List`, `Count`)
over a relational table modelled as a list of rows, and the application
service (`CreateUser`, `UpdateUser`, `DeleteUser`, `GetUser`, `GetByEmail`,
`ListUsers`, `CountUsers`, `Ping`) parameterised over the repository and
health-checker interfaces exactly as the Go `UserService` struct is.

Go strings are embedded as lists of byte values (`List Nat`): Go's `len`,
`strings.TrimSpace`, `strings.ToLower` and the email regular expression all
operate bytewise on the ASCII data relevant here, and byte lists reduce well
in the kernel.
-/

/-- Byte-list embedding of a Go string literal (ASCII data). -/
def str (s : String) : List Nat :=
  s.data.map Char.toNat

/-- ASCII whitespace recognised by `strings.TrimSpace`. -/
def isSpaceByte (b : Nat) : Bool :=
  b == 32 || b == 9 || b == 10 || b == 11 || b == 12 || b == 13

/-- Model of `strings.TrimSpace`: drop leading and trailing whitespace. -/
def strTrim (s : List Nat) : List Nat :=
  ((s.dropWhile isSpaceByte).reverse.dropWhile isSpaceByte).reverse

/-- Model of `strings.ToLower` on ASCII bytes. -/
def strToLower (s : List Nat) : List Nat :=
  s.map fun b => if 65 ≤ b && b ≤ 90 then b + 32 else b

/-- Strict bytewise lexicographic order, the order Postgres gives ids. -/
def strLt : List Nat → List Nat → Bool
  | [], [] => false
  | [], _ :: _ => true
  | _ :: _, [] => false
  | a :: as, b :: bs => if a < b then true else if b < a then false else strLt as bs

/-- Reflexive bytewise lexicographic order. -/
def strLe : List Nat → List Nat → Bool
  | [], _ => true
  | _ :: _, [] => false
  | a :: as, b :: bs => if a < b then true else if b < a then false else strLe as bs

/-- Split a byte list on a separator byte, like `strings.Split`. -/
def splitByte (sep : Nat) : List Nat → List (List Nat)
  | [] => [[]]
  | c :: cs =>
    let rest := splitByte sep cs
    if c == sep then [] :: rest
    else
      match rest with
      | [] => [[c]]
      | r :: rs => (c :: r) :: rs

/-- Rejoin byte-list fragments with a separator byte. -/
def joinByte (sep : Nat) : List (List Nat) → List Nat
  | [] => []
  | [x] => x
  | x :: xs => x ++ sep :: joinByte sep xs

/-- Bytes allowed in the local part of the email pattern. -/
def isLocalByte (b : Nat) : Bool :=
  (97 ≤ b && b ≤ 122) || (48 ≤ b && b ≤ 57) ||
    b == 46 || b == 95 || b == 37 || b == 43 || b == 45

/-- Bytes allowed in the domain part of the email pattern. -/
def isDomainByte (b : Nat) : Bool :=
  (97 ≤ b && b ≤ 122) || (48 ≤ b && b ≤ 57) || b == 46 || b == 45

/-- Bytes allowed in the top-level-domain part of the email pattern. -/
def isTldByte (b : Nat) : Bool :=
  97 ≤ b && b ≤ 122

/-- Model of the anchored email regular expression of the domain package:
one run of local bytes, one at-sign, a nonempty domain, a dot, and a
top-level domain of at least two lowercase letters ending the string. -/
def emailRegexMatch (s : List Nat) : Bool :=
  match splitByte 64 s with
  | [lp, dom] =>
    !lp.isEmpty && lp.all isLocalByte &&
      (let parts := splitByte 46 dom
       match parts.getLast? with
       | some tld =>
         decide (2 ≤ tld.length) && tld.all isTldByte &&
           (let pre := joinByte 46 parts.dropLast
            !parts.dropLast.isEmpty && !pre.isEmpty && pre.all isDomainByte)
       | none => false)
  | _ => false

/-- Unified error type: the Go code passes every failure through a single
`error` value, so the domain, repository and service errors live together. -/
inductive Err
  | invalidName
  | invalidEmail
  | alreadyDeleted
  | notDeleted
  | idAlreadySet
  | userNotFound
  | duplicateEmail
  | versionConflict
  | invalidInput
  | cancelled
  | invalidLimit
deriving DecidableEq

/-- The User aggregate; an unset id is the empty byte list, matching the
Go zero value of `UserID`. -/
structure User where
  id : List Nat
  name : List Nat
  email : List Nat
  version : Int
  createdAt : Nat
  updatedAt : Nat
  deletedAt : Option Nat
deriving DecidableEq

/-- Model of `normalizeEmail`: trim then lower-case. -/
def normalizeEmail (email : List Nat) : List Nat :=
  strToLower (strTrim email)

/-- Model of `validateName`: byte length must lie in two to one hundred. -/
def validateName (name : List Nat) : Option Err :=
  if name.length < 2 || 100 < name.length then some .invalidName else none

/-- Model of `NewUser`: normalize, validate, version one, both timestamps
set to now, no id. -/
def NewUser (name email : List Nat) (now : Nat) : Except Err User :=
  let name := strTrim name
  let email := normalizeEmail email
  match validateName name with
  | some e => .error e
  | none =>
    if !emailRegexMatch email then .error .invalidEmail
    else .ok ⟨[], name, email, 1, now, now, none⟩

/-- Model of `RehydrateUser`: trusted reconstruction, no validation. -/
def RehydrateUser (id name email : List Nat) (version : Int)
    (createdAt updatedAt : Nat) (deletedAt : Option Nat) : User :=
  ⟨id, name, email, version, createdAt, updatedAt, deletedAt⟩

/-- Model of `User.Delete`: fails when already soft-deleted. -/
def User.Delete (u : User) (now : Nat) : Except Err User :=
  if u.deletedAt.isSome then .error .alreadyDeleted
  else .ok { u with deletedAt := some now, updatedAt := now }

/-- Model of `User.Restore`: fails when not deleted. -/
def User.Restore (u : User) (now : Nat) : Except Err User :=
  if u.deletedAt.isNone then .error .notDeleted
  else .ok { u with deletedAt := none, updatedAt := now }

/-- Model of `User.ChangeName`: trims, validates, then a strict no-op when
the trimmed name equals the current one. -/
def User.ChangeName (u : User) (newName : List Nat) (now : Nat) : Except Err User :=
  if u.deletedAt.isSome then .error .alreadyDeleted
  else
    let newName := strTrim newName
    match validateName newName with
    | some e => .error e
    | none =>
      if u.name = newName then .ok u
      else .ok { u with name := newName, updatedAt := now }

/-- Model of `User.ChangeEmail`: normalizes, checks the pattern, then a
strict no-op when the normalized email equals the current one. -/
def User.ChangeEmail (u : User) (newEmail : List Nat) (now : Nat) : Except Err User :=
  if u.deletedAt.isSome then .error .alreadyDeleted
  else
    let newEmail := normalizeEmail newEmail
    if !emailRegexMatch newEmail then .error .invalidEmail
    else if u.email = newEmail then .ok u
    else .ok { u with email := newEmail, updatedAt := now }

/-- Model of `User.IncreaseVersion`: called by the repository after a
successful optimistic-locked update. -/
def User.IncreaseVersion (u : User) : User :=
  { u with version := u.version + 1 }

/-- Model of `User.SetID`: one-time identity assignment. -/
def User.SetID (u : User) (id : List Nat) : Except Err User :=
  if u.id ≠ [] then .error .idAlreadySet else .ok { u with id := id }

/-- Model of `User.IsDeleted`. -/
def User.IsDeleted (u : User) : Bool :=
  u.deletedAt.isSome

/-- One row of the relational `users` table of the schema. -/
structure Row where
  id : List Nat
  name : List Nat
  email : List Nat
  version : Int
  createdAt : Nat
  updatedAt : Nat
  deletedAt : Option Nat
deriving DecidableEq

/-- The relational `users` table. -/
abbrev RowTable := List Row

/-- Model of `scanUser`: rebuild the aggregate from a row. -/
def scanUser (r : Row) : User :=
  RehydrateUser r.id r.name r.email r.version r.createdAt r.updatedAt r.deletedAt

/-- Model of `UserFilter` with the Go field names. -/
structure UserFilter where
  IncludeDeleted : Bool := false
  Email : Option (List Nat) := none
  CreatedAfter : Option Nat := none
  CreatedBefore : Option Nat := none

/-- Model of the keyset-pagination `Cursor`. -/
structure Cursor where
  AfterID : List Nat
deriving DecidableEq

/-- Result of a repository write: the returned error, the table after the
statement, and the in-memory aggregate after any pointer mutation. -/
structure RepoWrite (σ : Type) where
  err : Option Err
  state : σ
  user : User
deriving DecidableEq

/-- Model of `maxListLimit`. -/
def maxListLimit : Int := 1000

/-- The schema declares `email TEXT NOT NULL UNIQUE` over the whole table,
so an insert or update collides with every row holding the email, whether
soft-deleted or not. -/
def emailTaken (db : List Row) (email : List Nat) : Bool :=
  db.any fun r => r.email == email

/-- Model of `PostgresUserRepository.Create`: insert with a fresh
time-sortable id, version one and repository-owned timestamps; a unique
violation surfaces as `duplicateEmail`; the id is set only after a
successful insert. -/
def PostgresUserRepository.Create (db : List Row) (user : User)
    (newId : List Nat) (now : Nat) : RepoWrite (List Row) :=
  if emailTaken db user.email then ⟨some .duplicateEmail, db, user⟩
  else
    let db' := db ++ [⟨newId, user.name, user.email, 1, now, now, none⟩]
    match user.SetID newId with
    | .error e => ⟨some e, db', user⟩
    | .ok u' => ⟨none, db', u'⟩

/-- Rows matched by the conditional update predicate on id and version. -/
def matchedRows (db : List Row) (user : User) : List Row :=
  db.filter fun r => r.id == user.id && r.version == user.version

/-- Model of `PostgresUserRepository.Update`: conditional update matched on
id and version; a unique violation on the new email (against any other row)
surfaces as `duplicateEmail`; zero matched rows surface as
`versionConflict`; on success the matched row is rewritten and the
in-memory version is increased. -/
def PostgresUserRepository.Update (db : List Row) (user : User)
    (now : Nat) : RepoWrite (List Row) :=
  let newVersion := user.version + 1
  let matched := matchedRows db user
  if !matched.isEmpty && db.any (fun r => !(r.id == user.id) && r.email == user.email) then
    ⟨some .duplicateEmail, db, user⟩
  else if matched.isEmpty then ⟨some .versionConflict, db, user⟩
  else
    ⟨none,
      db.map fun r =>
        if r.id == user.id && r.version == user.version then
          { r with name := user.name, email := user.email, version := newVersion,
                   updatedAt := now, deletedAt := user.deletedAt }
        else r,
      user.IncreaseVersion⟩

/-- Model of `PostgresUserRepository.GetByID`: returns the row whether or
not it is soft-deleted. -/
def PostgresUserRepository.GetByID (db : List Row) (id : List Nat) : Except Err User :=
  match db.find? (fun r => r.id == id) with
  | some r => .ok (scanUser r)
  | none => .error .userNotFound

/-- Model of `PostgresUserRepository.GetByEmail`: lower-cases the query
(without trimming) and returns only non-deleted rows. -/
def PostgresUserRepository.GetByEmail (db : List Row) (email : List Nat) : Except Err User :=
  match db.find? (fun r => r.email == strToLower email && r.deletedAt == none) with
  | some r => .ok (scanUser r)
  | none => .error .userNotFound

/-- The AND-ed filter conditions of `List` and `Count`. -/
def matchesFilter (f : UserFilter) (r : Row) : Bool :=
  (f.IncludeDeleted || r.deletedAt == none) &&
    (match f.Email with | some e => r.email == strToLower e | none => true) &&
    (match f.CreatedAfter with | some t => decide (t < r.createdAt) | none => true) &&
    (match f.CreatedBefore with | some t => decide (r.createdAt < t) | none => true)

/-- The extra AND-ed keyset condition contributed by a cursor. -/
def matchesCursor (c : Option Cursor) (r : Row) : Bool :=
  match c with
  | some cur => strLt cur.AfterID r.id
  | none => true

/-- Ascending id order used by the `ORDER BY id ASC` clause. -/
def rowLe (a b : Row) : Bool :=
  strLe a.id b.id

/-- Insert a row into a run already in ascending id order. -/
def orderedInsert (r : Row) : List Row → List Row
  | [] => [r]
  | x :: xs => if rowLe r x then r :: x :: xs else x :: orderedInsert r xs

/-- The `ORDER BY id ASC` clause: stable sort by ascending id. -/
def sortRows : List Row → List Row
  | [] => []
  | x :: xs => orderedInsert x (sortRows xs)

/-- Model of `PostgresUserRepository.List`: reject a non-positive limit,
clamp at `maxListLimit`, filter, order by id ascending, take the first
`limit` rows, and emit a next cursor carrying the last id exactly when the
page is full. -/
def PostgresUserRepository.List (db : List Row) (f : UserFilter)
    (c : Option Cursor) (limit : Int) : Except Err (List User × Option Cursor) :=
  if limit ≤ 0 then .error .invalidLimit
  else
    let limit := if maxListLimit < limit then maxListLimit else limit
    let rows :=
      (sortRows (db.filter fun r => matchesFilter f r && matchesCursor c r)).take limit.toNat
    let users := rows.map scanUser
    let lastID := match users.getLast? with | some u => u.id | none => []
    let nextCursor : Option Cursor :=
      if (users.length : Int) = limit then some ⟨lastID⟩ else none
    .ok (users, nextCursor)

/-- Model of `PostgresUserRepository.Count`: same filter, no pagination. -/
def PostgresUserRepository.Count (db : RowTable) (f : UserFilter) : Except Err Int :=
  .ok ((db.filter (matchesFilter f)).length : Int)

/-- The repository interface the service is constructed with; the first
argument of every operation is whether the calling context is already
cancelled or expired. -/
structure UserRepository (σ : Type) where
  create : Bool → σ → User → RepoWrite σ
  update : Bool → σ → User → RepoWrite σ
  getByID : Bool → σ → List Nat → Except Err User
  getByEmail : Bool → σ → List Nat → Except Err User
  list : Bool → σ → UserFilter → Option Cursor → Int → Except Err (List User × Option Cursor)
  count : Bool → σ → UserFilter → Except Err Int

/-- The health-checker interface. -/
structure HealthChecker (σ : Type) where
  ping : Bool → σ → Option Err

/-- Model of the `UserService` struct: a repository and a health checker. -/
structure UserService (σ : Type) where
  repo : UserRepository σ
  health : HealthChecker σ

/-- Model of `UserService.CreateUser`: fail fast on a cancelled context,
construct the aggregate mapping construction failures to `invalidInput`,
then persist. -/
def UserService.CreateUser (s : UserService σ) (ctx : Bool) (db : σ)
    (name email : List Nat) (now : Nat) : Except Err (σ × User) :=
  if ctx then .error .cancelled
  else
    match NewUser name email now with
    | .error _ => .error .invalidInput
    | .ok user =>
      match s.repo.create ctx db user with
      | ⟨some e, _, _⟩ => .error e
      | ⟨none, db', u'⟩ => .ok (db', u')

/-- Model of `UserService.UpdateUser`: fail fast on a cancelled context,
load by id, treat a soft-deleted user as not found, apply `ChangeName`
then `ChangeEmail` against one instant mapping failures to `invalidInput`,
then persist. -/
def UserService.UpdateUser (s : UserService σ) (ctx : Bool) (db : σ)
    (id name email : List Nat) (now : Nat) : Except Err (σ × User) :=
  if ctx then .error .cancelled
  else
    match s.repo.getByID ctx db id with
    | .error e => .error e
    | .ok user =>
      if user.IsDeleted then .error .userNotFound
      else
        match user.ChangeName name now with
        | .error _ => .error .invalidInput
        | .ok user =>
          match user.ChangeEmail email now with
          | .error _ => .error .invalidInput
          | .ok user =>
            match s.repo.update ctx db user with
            | ⟨some e, _, _⟩ => .error e
            | ⟨none, db', u'⟩ => .ok (db', u')

/-- Model of `UserService.DeleteUser`: fail fast on a cancelled context,
load by id, treat a soft-deleted user as not found, mark deleted and
persist through the optimistic-locked update. -/
def UserService.DeleteUser (s : UserService σ) (ctx : Bool) (db : σ)
    (id : List Nat) (now : Nat) : Except Err σ :=
  if ctx then .error .cancelled
  else
    match s.repo.getByID ctx db id with
    | .error e => .error e
    | .ok user =>
      if user.IsDeleted then .error .userNotFound
      else
        match user.Delete now with
        | .error e => .error e
        | .ok user =>
          match s.repo.update ctx db user with
          | ⟨some e, _, _⟩ => .error e
          | ⟨none, db', _⟩ => .ok db'

/-- Model of `UserService.GetUser`: fail fast on a cancelled context, load
by id, treat a soft-deleted user as not found. -/
def UserService.GetUser (s : UserService σ) (ctx : Bool) (db : σ)
    (id : List Nat) : Except Err User :=
  if ctx then .error .cancelled
  else
    match s.repo.getByID ctx db id with
    | .error e => .error e
    | .ok user => if user.IsDeleted then .error .userNotFound else .ok user

/-- Model of `UserService.GetByEmail`: fail fast then delegate. -/
def UserService.GetByEmail (s : UserService σ) (ctx : Bool) (db : σ)
    (email : List Nat) : Except Err User :=
  if ctx then .error .cancelled else s.repo.getByEmail ctx db email

/-- Model of `UserService.ListUsers`: fail fast then delegate. -/
def UserService.ListUsers (s : UserService σ) (ctx : Bool) (db : σ)
    (f : UserFilter) (c : Option Cursor) (limit : Int) :
    Except Err (List User × Option Cursor) :=
  if ctx then .error .cancelled else s.repo.list ctx db f c limit

/-- Model of `UserService.CountUsers`: fail fast then delegate. -/
def UserService.CountUsers (s : UserService σ) (ctx : Bool) (db : σ)
    (f : UserFilter) : Except Err Int :=
  if ctx then .error .cancelled else s.repo.count ctx db f

/-- Model of `UserService.Ping`: delegates to the health checker without
any context check, exactly as the Go method does. -/
def UserService.Ping (s : UserService σ) (ctx : Bool) (db : σ) : Option Err :=
  s.health.ping ctx db

/-- The Postgres repository packaged as the interface; the fresh id and the
repository-side clock readings of the create and update statements are
fixed by the instantiation, and a cancelled context makes the driver fail
with the cancellation before touching the table. -/
def pgRepo (newId : List Nat) (cnow unow : Nat) : UserRepository (List Row) :=
  { create := fun ctx db u =>
      if ctx then ⟨some .cancelled, db, u⟩ else PostgresUserRepository.Create db u newId cnow
    update := fun ctx db u =>
      if ctx then ⟨some .cancelled, db, u⟩ else PostgresUserRepository.Update db u unow
    getByID := fun ctx db id =>
      if ctx then .error .cancelled else PostgresUserRepository.GetByID db id
    getByEmail := fun ctx db e =>
      if ctx then .error .cancelled else PostgresUserRepository.GetByEmail db e
    list := fun ctx db f c l =>
      if ctx then .error .cancelled else PostgresUserRepository.List db f c l
    count := fun ctx db f =>
      if ctx then .error .cancelled else PostgresUserRepository.Count db f }

/-- The health checker backed by the database ping. -/
def pgHealth : HealthChecker (List Row) :=
  ⟨fun ctx _ => if ctx then some .cancelled else none⟩

/-- The deployed service: Postgres repository plus database health check. -/
def pgService (newId : List Nat) (cnow unow : Nat) : UserService (List Row) :=
  ⟨pgRepo newId cnow unow, pgHealth⟩

/-- A repository instance whose operations all succeed trivially without
consulting the context; Go interface implementations are free to ignore
the context, so this is a legal collaborator of the service. -/
def trivialRepo : UserRepository Unit :=
  { create := fun _ db u => ⟨none, db, u⟩
    update := fun _ db u => ⟨none, db, u⟩
    getByID := fun _ _ _ => .error .userNotFound
    getByEmail := fun _ _ _ => .error .userNotFound
    list := fun _ _ _ _ _ => .ok ([], none)
    count := fun _ _ _ => .ok 0 }

/-- A health checker that reports healthy regardless of the context. -/
def okHealth : HealthChecker Unit :=
  ⟨fun _ _ => none⟩

/-- The service wired to the trivial collaborators. -/
def trivialService : UserService Unit :=
  ⟨trivialRepo, okHealth⟩

/-- Table with two live users holding distinct emails. -/
def c1db : List Row :=
  [⟨[1], str "Bo", str "b@x.co", 1, 0, 0, none⟩,
   ⟨[2], str "Cy", str "c@x.co", 1, 0, 0, none⟩]

/-- An aggregate loaded from the first row of `c1db` whose email was
changed to the second row's email. -/
def c1user : User :=
  ⟨[1], str "Bo", str "c@x.co", 1, 0, 0, none⟩

/-- Table with a single live user. -/
def c1row2 : Row :=
  ⟨[1], str "Bo", str "b@x.co", 1, 0, 0, none⟩

/-- The aggregate loaded from `c1row2`, unchanged. -/
def c1user2 : User :=
  ⟨[1], str "Bo", str "b@x.co", 1, 0, 0, none⟩

/-- Table with one soft-deleted user. -/
def c3db : List Row :=
  [⟨[1], str "Al", str "a@b.co", 1, 0, 0, some 3⟩]

/-- A freshly constructed aggregate reusing the soft-deleted user's email. -/
def c3user : User :=
  ⟨[], str "Bob", str "a@b.co", 1, 5, 5, none⟩

/-- The aggregate the service loaded before a concurrent writer moved the
stored row to version two. -/
def staleUser : User :=
  ⟨[1], str "Bo", str "a@b.co", 1, 0, 0, none⟩

/-- The table after the concurrent writer committed: same row, version two. -/
def concurrentDb : List Row :=
  [⟨[1], str "Bo", str "a@b.co", 2, 0, 4, none⟩]

/-- A repository capturing the interleaved execution: the load returned the
stale aggregate, the conditional update then runs against the moved table. -/
def staleReadRepo : UserRepository (List Row) :=
  { pgRepo [9] 0 9 with getByID := fun _ _ _ => .ok staleUser }

/-- The service wired to the interleaved-execution repository. -/
def staleReadService : UserService (List Row) :=
  ⟨staleReadRepo, pgHealth⟩

/-- Claim C5 (amended): every service operation except `Ping` observes an
already-cancelled context first and returns the cancellation error without
consulting the repository — for an arbitrary repository and health checker,
so no storage-adapter work can influence the result. -/
theorem c5_service_fails_fast {σ : Type} (s : UserService σ) (db : σ)
    (name email id : List Nat) (now : Nat) (f : UserFilter) (c : Option Cursor)
    (limit : Int) :
    s.CreateUser true db name email now = .error .cancelled ∧
    s.UpdateUser true db id name email now = .error .cancelled ∧
    s.DeleteUser true db id now = .error .cancelled ∧
    s.GetUser true db id = .error .cancelled ∧
    s.GetByEmail true db email = .error .cancelled ∧
    s.ListUsers true db f c limit = .error .cancelled ∧
    s.CountUsers true db f = .error .cancelled :=
  ⟨rfl, rfl, rfl, rfl, rfl, rfl, rfl⟩

/-- Claim C5 counterexample: `Ping` performs no context check and simply
delegates, so with a health checker that ignores the context it reports
success on an already-cancelled context instead of the cancellation error. -/
theorem c5_counterexample :
    trivialService.Ping true () = none ∧ ¬ trivialService.Ping true () = some Err.cancelled := by
  decide

/-- Claim C7: when `Create` fails with `duplicateEmail`, the in-memory
aggregate is returned untouched, so its id is still unset. -/
theorem c7_create_duplicate_leaves_id_unset (db : List Row) (u : User)
    (newId : List Nat) (now : Nat)
    (h : (PostgresUserRepository.Create db u newId now).err = some .duplicateEmail) :
    (PostgresUserRepository.Create db u newId now).user = u := by
  unfold PostgresUserRepository.Create at h ⊢
  by_cases hd : emailTaken db u.email = true
  · simp [hd]
  · unfold User.SetID at h ⊢
    by_cases hid : u.id = []
    · simp [hd, hid] at h
    · simp [hd, hid] at h

/-- Claim C7 witness: a concrete duplicate insert leaves the aggregate,
and with it the unset id, unchanged. -/
theorem c7_witness :
    (PostgresUserRepository.Create c3db c3user [2] 6).err = some .duplicateEmail ∧
    (PostgresUserRepository.Create c3db c3user [2] 6).user = c3user :=
  ⟨by decide, c7_create_duplicate_leaves_id_unset c3db c3user [2] 6 (by decide)⟩

/-- Claim C8: a non-positive limit is rejected with an error, and a limit
above `maxListLimit` behaves exactly like `maxListLimit`. -/
theorem c8_list_limit_validation (db : List Row) (f : UserFilter)
    (c : Option Cursor) (limit : Int) :
    (limit ≤ 0 → PostgresUserRepository.List db f c limit = .error .invalidLimit) ∧
    (maxListLimit < limit →
      PostgresUserRepository.List db f c limit = PostgresUserRepository.List db f c maxListLimit) := by
  have hm : maxListLimit = 1000 := rfl
  constructor
  · intro h
    unfold PostgresUserRepository.List
    rw [if_pos h]
  · intro h
    unfold PostgresUserRepository.List
    rw [if_neg (by omega : ¬ limit ≤ 0), if_neg (by omega : ¬ maxListLimit ≤ 0),
      if_pos h, if_neg (by omega : ¬ maxListLimit < maxListLimit)]

/-- Claim C8 witness: limit zero errors; limit 1500 lists exactly like
limit 1000. -/
theorem c8_witness :
    PostgresUserRepository.List [] {} none 0 = .error .invalidLimit ∧
    PostgresUserRepository.List [] {} none 1500 = PostgresUserRepository.List [] {} none 1000 :=
  ⟨(c8_list_limit_validation [] {} none 0).1 (by decide),
   (c8_list_limit_validation [] {} none 1500).2 (by decide)⟩

/-- Claim C10: whenever the repository's conditional update reports a
version conflict for the deleted aggregate the service built, `DeleteUser`
propagates exactly that `versionConflict` error to its caller. -/
theorem c10_delete_propagates_version_conflict {σ : Type} (s : UserService σ)
    (db : σ) (id : List Nat) (now : Nat) (u : User)
    (h1 : s.repo.getByID false db id = .ok u)
    (h2 : u.deletedAt = none)
    (h3 : (s.repo.update false db { u with deletedAt := some now, updatedAt := now }).err =
      some .versionConflict) :
    s.DeleteUser false db id now = .error .versionConflict := by
  unfold UserService.DeleteUser
  rcases hw : s.repo.update false db { u with deletedAt := some now, updatedAt := now } with
    ⟨werr, wdb, wuser⟩
  rw [hw] at h3
  simp only [RepoWrite.err] at h3
  subst h3
  simp [h1, h2, User.IsDeleted, User.Delete, hw]

/-- Claim C10 witness: the stored row moved to version two after the load,
so the delete's conditional update matches zero rows and the caller of
`DeleteUser` receives `versionConflict`. -/
theorem c10_witness :
    staleReadService.DeleteUser false concurrentDb [1] 7 = .error .versionConflict :=
  c10_delete_propagates_version_conflict staleReadService concurrentDb [1] 7 staleUser
    (by decide) (by decide) (by decide)

/-- Claim C1 counterexample: exactly one row matches the pair of id and
version, yet the update fails with `duplicateEmail` because the new email
collides with the other row under the table-wide unique constraint. -/
theorem c1_counterexample :
    (matchedRows c1db c1user).length = 1 ∧
    PostgresUserRepository.Update c1db c1user 5 = ⟨some .duplicateEmail, c1db, c1user⟩ := by
  decide

/-- Claim C1 (amended): with zero matched rows the update returns
`versionConflict` and leaves the aggregate untouched; with exactly one
matched row and no email collision against another row it succeeds and
increments the in-memory version by exactly one. -/
theorem c1_update_optimistic_lock (db : List Row) (user : User) (now : Nat) :
    (matchedRows db user = [] →
      PostgresUserRepository.Update db user now = ⟨some .versionConflict, db, user⟩) ∧
    (∀ r, matchedRows db user = [r] →
      db.any (fun x => !(x.id == user.id) && x.email == user.email) = false →
      (PostgresUserRepository.Update db user now).err = none ∧
      (PostgresUserRepository.Update db user now).user.version = user.version + 1) := by
  constructor
  · intro h
    unfold PostgresUserRepository.Update
    rw [h]
    simp
  · intro r hr hdup
    unfold PostgresUserRepository.Update
    rw [hr, hdup]
    simp [User.IncreaseVersion]

/-- Claim C1 witness: an empty table gives `versionConflict` with the
aggregate unchanged; a one-row match without collision succeeds and bumps
the version from one to two. -/
theorem c1_witness :
    PostgresUserRepository.Update [] c1user 5 = ⟨some .versionConflict, [], c1user⟩ ∧
    (PostgresUserRepository.Update [c1row2] c1user2 9).err = none ∧
    (PostgresUserRepository.Update [c1row2] c1user2 9).user.version = c1user2.version + 1 :=
  ⟨(c1_update_optimistic_lock [] c1user 5).1 (by decide),
   (c1_update_optimistic_lock [c1row2] c1user2 9).2 c1row2 (by decide) (by decide)⟩

/-- Claim C3 counterexample: the table-wide unique constraint also covers
soft-deleted rows, so creating a user with a soft-deleted user's email
fails with `duplicateEmail` instead of succeeding. -/
theorem c3_counterexample :
    c3db.all (fun r => !(r.deletedAt == none)) = true ∧
    PostgresUserRepository.Create c3db c3user [2] 6 = ⟨some .duplicateEmail, c3db, c3user⟩ := by
  decide

/-- Claim C3 (amended): email uniqueness is enforced across all rows,
deleted or not — creation fails with `duplicateEmail` exactly when some
row already holds the email, and succeeds on a fresh email, appending the
new row and assigning the id. -/
theorem c3_email_unique_all_rows (db : List Row) (u : User) (newId : List Nat) (now : Nat) :
    (emailTaken db u.email = true →
      PostgresUserRepository.Create db u newId now = ⟨some .duplicateEmail, db, u⟩) ∧
    (emailTaken db u.email = false → u.id = [] →
      PostgresUserRepository.Create db u newId now =
        ⟨none, db ++ [⟨newId, u.name, u.email, 1, now, now, none⟩], { u with id := newId }⟩) := by
  constructor
  · intro h
    unfold PostgresUserRepository.Create
    rw [h]
    simp
  · intro h hid
    unfold PostgresUserRepository.Create User.SetID
    rw [h]
    simp [hid]

/-- Claim C3 witness: a duplicate of a live user's email fails with
`duplicateEmail`, and a fresh email is inserted with the id assigned. -/
theorem c3_witness :
    PostgresUserRepository.Create [⟨[1], str "Al", str "a@b.co", 1, 0, 0, none⟩] c3user [5] 6 =
      ⟨some .duplicateEmail, [⟨[1], str "Al", str "a@b.co", 1, 0, 0, none⟩], c3user⟩ ∧
    PostgresUserRepository.Create [] c3user [5] 6 =
      ⟨none, [⟨[5], str "Bob", str "a@b.co", 1, 6, 6, none⟩], { c3user with id := [5] }⟩ := by
  refine ⟨?_, ?_⟩
  · exact (c3_email_unique_all_rows [⟨[1], str "Al", str "a@b.co", 1, 0, 0, none⟩] c3user [5] 6).1
      (by decide)
  · exact (c3_email_unique_all_rows [] c3user [5] 6).2 (by decide) (by decide)

/-- Claim C6: when the row a given id resolves to is soft-deleted, the
adapter-level `GetByID` still returns it, while the service-level
`GetUser`, `UpdateUser` and `DeleteUser` all report `userNotFound` — in
particular re-invoking the delete on an already-deleted user reports
`userNotFound`. -/
theorem c6_soft_deleted_invisible (newId : List Nat) (cnow unow : Nat)
    (db : List Row) (id : List Nat) (row : Row) (t : Nat)
    (name email : List Nat) (now : Nat)
    (hfind : db.find? (fun r => r.id == id) = some row)
    (hdel : row.deletedAt = some t) :
    PostgresUserRepository.GetByID db id = .ok (scanUser row) ∧
    (pgService newId cnow unow).GetUser false db id = .error .userNotFound ∧
    (pgService newId cnow unow).UpdateUser false db id name email now = .error .userNotFound ∧
    (pgService newId cnow unow).DeleteUser false db id now = .error .userNotFound := by
  have hbyid : PostgresUserRepository.GetByID db id = .ok (scanUser row) := by
    unfold PostgresUserRepository.GetByID
    rw [hfind]
  refine ⟨hbyid, ?_, ?_, ?_⟩ <;>
    simp [UserService.GetUser, UserService.UpdateUser, UserService.DeleteUser,
      pgService, pgRepo, hbyid, User.IsDeleted, scanUser, RehydrateUser, hdel]

/-- Claim C6 witness: a table whose only row is soft-deleted. -/
theorem c6_witness :
    PostgresUserRepository.GetByID c3db [1] =
      .ok (scanUser ⟨[1], str "Al", str "a@b.co", 1, 0, 0, some 3⟩) ∧
    (pgService [9] 0 9).GetUser false c3db [1] = .error .userNotFound ∧
    (pgService [9] 0 9).UpdateUser false c3db [1] (str "Al") (str "a@b.co") 7 =
      .error .userNotFound ∧
    (pgService [9] 0 9).DeleteUser false c3db [1] 7 = .error .userNotFound :=
  c6_soft_deleted_invisible [9] 0 9 c3db [1] ⟨[1], str "Al", str "a@b.co", 1, 0, 0, some 3⟩ 3
    (str "Al") (str "a@b.co") 7 (by decide) (by decide)

/-- Claim C2 counterexample: updating a user with its unchanged name and
email still persists: the returned aggregate's version moved from one to
two and the stored row's updated timestamp advanced to the update
statement's clock — there is no no-op short-circuit. -/
theorem c2_counterexample :
    (pgService [9] 0 9).UpdateUser false
        [⟨[1], str "Bob", str "bob@example.com", 1, 0, 0, none⟩] [1]
        (str "Bob") (str "bob@example.com") 7 =
      .ok ([⟨[1], str "Bob", str "bob@example.com", 2, 0, 9, none⟩],
        ⟨[1], str "Bob", str "bob@example.com", 2, 0, 0, none⟩) := by
  decide

/-- Claim C2 (amended): for a persisted, non-deleted user, `updateUser`
with a name and email whose normalized forms equal the current ones leaves
the aggregate's name, email and in-memory updated timestamp unchanged (the
domain mutators are strict no-ops), but it still performs the conditional
write, so the returned version is the stored version plus one and the
stored row's updated timestamp advances. -/
theorem c2_noop_update_bumps_version (newId : List Nat) (cnow unow : Nat)
    (db : List Row) (id name email : List Nat) (now : Nat) (row : Row)
    (hfind : db.find? (fun r => r.id == id) = some row)
    (hdel : row.deletedAt = none)
    (hname : strTrim name = row.name)
    (hvalid : validateName row.name = none)
    (hemail : normalizeEmail email = row.email)
    (hregex : emailRegexMatch row.email = true)
    (hmatched : matchedRows db (scanUser row) = [row])
    (hnodup : db.any (fun x => !(x.id == row.id) && x.email == row.email) = false) :
    ∃ db' u',
      (pgService newId cnow unow).UpdateUser false db id name email now = .ok (db', u') ∧
      u'.version = row.version + 1 ∧ u'.updatedAt = row.updatedAt ∧
      u'.name = row.name ∧ u'.email = row.email := by
  have hbyid : PostgresUserRepository.GetByID db id = .ok (scanUser row) := by
    unfold PostgresUserRepository.GetByID
    rw [hfind]
  have hdel' : (scanUser row).IsDeleted = false := by
    simp [scanUser, RehydrateUser, User.IsDeleted, hdel]
  have hcn : (scanUser row).ChangeName name now = .ok (scanUser row) := by
    simp [User.ChangeName, scanUser, RehydrateUser, hdel, hname, hvalid]
  have hce : (scanUser row).ChangeEmail email now = .ok (scanUser row) := by
    simp [User.ChangeEmail, scanUser, RehydrateUser, hdel, hemail, hregex]
  have hupd : PostgresUserRepository.Update db (scanUser row) unow =
      ⟨none,
        db.map fun r =>
          if r.id == (scanUser row).id && r.version == (scanUser row).version then
            { r with name := (scanUser row).name, email := (scanUser row).email,
                     version := (scanUser row).version + 1,
                     updatedAt := unow, deletedAt := (scanUser row).deletedAt }
          else r,
        (scanUser row).IncreaseVersion⟩ := by
    unfold PostgresUserRepository.Update
    rw [hmatched]
    simp only [scanUser, RehydrateUser] at hnodup ⊢
    rw [hnodup]
    simp
  have hall : (pgService newId cnow unow).UpdateUser false db id name email now =
      .ok ((PostgresUserRepository.Update db (scanUser row) unow).state,
        (scanUser row).IncreaseVersion) := by
    simp only [UserService.UpdateUser, pgService, pgRepo]
    simp [hbyid, hdel', hcn, hce, hupd]
  refine ⟨_, _, hall, ?_, ?_, ?_, ?_⟩ <;>
    simp [scanUser, RehydrateUser, User.IncreaseVersion]

/-- Claim C2 witness: a concrete unchanged-fields update returns a user at
version two with its in-memory updated timestamp untouched. -/
theorem c2_witness :
    ∃ db' u',
      (pgService [9] 0 9).UpdateUser false
          [⟨[1], str "Bob", str "bob@example.com", 1, 0, 0, none⟩] [1]
          (str "Bob") (str "bob@example.com") 7 = .ok (db', u') ∧
      u'.version = 1 + 1 ∧ u'.updatedAt = 0 ∧
      u'.name = str "Bob" ∧ u'.email = str "bob@example.com" :=
  c2_noop_update_bumps_version [9] 0 9
    [⟨[1], str "Bob", str "bob@example.com", 1, 0, 0, none⟩] [1]
    (str "Bob") (str "bob@example.com") 7
    ⟨[1], str "Bob", str "bob@example.com", 1, 0, 0, none⟩
    (by decide) (by decide) (by decide) (by decide) (by decide) (by decide)
    (by decide) (by decide)

/-- Claim C9 counterexample: the created user's stored, normalized email is
the lower-cased trim of the input, yet querying with a string that
normalizes to the same value but carries trailing whitespace is not found,
because `GetByEmail` lower-cases without trimming. -/
theorem c9_counterexample :
    NewUser (str "Bob") (str "A@Example.com ") 1 =
      .ok ⟨[], str "Bob", str "a@example.com", 1, 1, 1, none⟩ ∧
    PostgresUserRepository.Create [] ⟨[], str "Bob", str "a@example.com", 1, 1, 1, none⟩ [7] 2 =
      ⟨none, [⟨[7], str "Bob", str "a@example.com", 1, 2, 2, none⟩],
        ⟨[7], str "Bob", str "a@example.com", 1, 1, 1, none⟩⟩ ∧
    normalizeEmail (str "a@example.com ") = str "a@example.com" ∧
    PostgresUserRepository.GetByEmail [⟨[7], str "Bob", str "a@example.com", 1, 2, 2, none⟩]
      (str "a@example.com ") = .error .userNotFound := by
  decide

/-- Claim C9 (amended): after a successful create of a constructed user,
`GetByEmail` returns that user for every query string whose lower-cased
form equals the normalized stored email; queries that additionally need
trimming are not covered, since the adapter lower-cases without trimming. -/
theorem c9_getbyemail_lowercase_roundtrip (db : List Row) (name email : List Nat)
    (now cnow : Nat) (newId : List Nat) (q : List Nat) (u : User)
    (hnew : NewUser name email now = .ok u)
    (hok : (PostgresUserRepository.Create db u newId cnow).err = none)
    (hq : strToLower q = normalizeEmail email) :
    PostgresUserRepository.GetByEmail (PostgresUserRepository.Create db u newId cnow).state q =
      .ok (scanUser ⟨newId, u.name, u.email, 1, cnow, cnow, none⟩) := by
  have hemail : u.email = normalizeEmail email := by
    simp only [NewUser] at hnew
    cases hval : validateName (strTrim name) with
    | some e =>
      rw [hval] at hnew
      simp at hnew
    | none =>
      rw [hval] at hnew
      by_cases hr : emailRegexMatch (normalizeEmail email) = true
      · simp [hr] at hnew
        rw [← hnew]
      · simp [hr] at hnew
  have htaken : emailTaken db u.email = false := by
    by_cases ht : emailTaken db u.email = true
    · unfold PostgresUserRepository.Create at hok
      rw [if_pos ht] at hok
      simp at hok
    · exact Bool.eq_false_iff.mpr ht
  have hstate : (PostgresUserRepository.Create db u newId cnow).state =
      db ++ [⟨newId, u.name, u.email, 1, cnow, cnow, none⟩] := by
    unfold PostgresUserRepository.Create User.SetID
    by_cases hid : u.id = [] <;> simp [htaken, hid]
  rw [hstate]
  unfold PostgresUserRepository.GetByEmail
  rw [List.find?_append]
  have hnone : db.find? (fun r => r.email == strToLower q && r.deletedAt == none) = none := by
    rw [List.find?_eq_none]
    intro x hx
    have hxe : (x.email == u.email) = false := by
      have h1 : db.any (fun r => r.email == u.email) = false := htaken
      exact Bool.eq_false_iff.mpr (List.any_eq_false.mp h1 x hx)
    rw [hq, ← hemail]
    simp [hxe]
  rw [hnone]
  have hq' : (u.email == strToLower q) = true := by
    rw [hq, ← hemail]
    simp
  simp [List.find?, hq']

/-- Claim C9 witness: creating with a mixed-case, untrimmed email and
querying the already-lower-cased form returns the created user. -/
theorem c9_witness :
    PostgresUserRepository.GetByEmail
        (PostgresUserRepository.Create []
          ⟨[], str "Bob", str "a@example.com", 1, 1, 1, none⟩ [7] 2).state
        (str "a@example.com") =
      .ok (scanUser ⟨[7], str "Bob", str "a@example.com", 1, 2, 2, none⟩) :=
  c9_getbyemail_lowercase_roundtrip [] (str "Bob") (str "A@Example.com ") 1 2 [7]
    (str "a@example.com") ⟨[], str "Bob", str "a@example.com", 1, 1, 1, none⟩
    (by decide) (by decide) (by decide)

/-- Transitivity of the bytewise lexicographic order. -/
theorem strLe_trans (a : List Nat) :
    ∀ b c, strLe a b = true → strLe b c = true → strLe a c = true := by
  induction a with
  | nil => intro b c _ _; rfl
  | cons x xs ih =>
    intro b c hab hbc
    cases b with
    | nil => simp [strLe] at hab
    | cons y ys =>
      cases c with
      | nil => simp [strLe] at hbc
      | cons z zs =>
        simp only [strLe] at hab hbc ⊢
        by_cases h1 : x < y
        · by_cases h3 : y < z
          · rw [if_pos (by omega : x < z)]
          · by_cases h4 : z < y
            · rw [if_neg h3, if_pos h4] at hbc
              simp at hbc
            · rw [if_pos (by omega : x < z)]
        · by_cases h2 : y < x
          · rw [if_neg h1, if_pos h2] at hab
            simp at hab
          · by_cases h3 : y < z
            · rw [if_pos (by omega : x < z)]
            · by_cases h4 : z < y
              · rw [if_neg h3, if_pos h4] at hbc
                simp at hbc
              · rw [if_neg (by omega : ¬ x < z), if_neg (by omega : ¬ z < x)]
                rw [if_neg h1, if_neg h2] at hab
                rw [if_neg h3, if_neg h4] at hbc
                exact ih ys zs hab hbc

/-- Totality of the bytewise lexicographic order. -/
theorem strLe_total (a : List Nat) : ∀ b, strLe a b = true ∨ strLe b a = true := by
  induction a with
  | nil => intro b; left; rfl
  | cons x xs ih =>
    intro b
    cases b with
    | nil => right; rfl
    | cons y ys =>
      simp only [strLe]
      by_cases h1 : x < y
      · left; rw [if_pos h1]
      · by_cases h2 : y < x
        · right; rw [if_pos h2]
        · rcases ih ys with h | h
          · left
            rw [if_neg h1, if_neg h2]
            exact h
          · right
            rw [if_neg h2, if_neg h1]
            exact h

/-- Membership is preserved by insertion into a sorted run. -/
theorem mem_orderedInsert (r x : Row) (l : List Row) :
    x ∈ orderedInsert r l ↔ x = r ∨ x ∈ l := by
  induction l with
  | nil => simp [orderedInsert]
  | cons y ys ih =>
    simp only [orderedInsert]
    by_cases h : rowLe r y = true
    · rw [if_pos h]
      simp
    · rw [if_neg h]
      simp only [List.mem_cons, ih]
      tauto

/-- Sorting preserves membership. -/
theorem mem_sortRows (x : Row) (l : List Row) : x ∈ sortRows l ↔ x ∈ l := by
  induction l with
  | nil => simp [sortRows]
  | cons y ys ih =>
    simp only [sortRows, mem_orderedInsert, ih, List.mem_cons]

/-- Inserting into an ascending run keeps it ascending. -/
theorem pairwise_orderedInsert (r : Row) (l : List Row)
    (hl : l.Pairwise (fun a b => rowLe a b = true)) :
    (orderedInsert r l).Pairwise (fun a b => rowLe a b = true) := by
  induction l with
  | nil => simp [orderedInsert]
  | cons x xs ih =>
    rcases List.pairwise_cons.mp hl with ⟨hxall, hxs⟩
    simp only [orderedInsert]
    by_cases hx : rowLe r x = true
    · rw [if_pos hx]
      refine List.Pairwise.cons ?_ hl
      intro y hy
      rcases List.mem_cons.mp hy with rfl | hy
      · exact hx
      · exact strLe_trans r.id x.id y.id hx (hxall y hy)
    · rw [if_neg hx]
      have hrx : rowLe x r = true := by
        rcases strLe_total r.id x.id with h | h
        · exact absurd h hx
        · exact h
      refine List.Pairwise.cons ?_ (ih hxs)
      intro y hy
      rcases (mem_orderedInsert r y xs).mp hy with rfl | hy
      · exact hrx
      · exact hxall y hy

/-- The sort produces an ascending run. -/
theorem pairwise_sortRows (l : List Row) :
    (sortRows l).Pairwise (fun a b => rowLe a b = true) := by
  induction l with
  | nil => simp [sortRows]
  | cons x xs ih => exact pairwise_orderedInsert x (sortRows xs) ih

/-- Claim C4: for every list call with a positive limit, the call succeeds,
rows come back in ascending id order, every returned row satisfies the
cursor's strict keyset predicate, and a next cursor carrying the last
returned id is emitted exactly when the page is full at the clamped limit
— never when fewer rows came back. -/
theorem c4_list_keyset_pagination (db : List Row) (f : UserFilter) (c : Option Cursor)
    (limit : Int) (h : 0 < limit) :
    ∃ users next,
      PostgresUserRepository.List db f c limit = .ok (users, next) ∧
      users.Pairwise (fun a b => strLe a.id b.id = true) ∧
      (∀ u ∈ users, ∀ cur, c = some cur → strLt cur.AfterID u.id = true) ∧
      ((users.length : Int) = (if maxListLimit < limit then maxListLimit else limit) →
        ∃ lu, users.getLast? = some lu ∧ next = some ⟨lu.id⟩) ∧
      ((users.length : Int) ≠ (if maxListLimit < limit then maxListLimit else limit) →
        next = none) := by
  have hnot : ¬ limit ≤ 0 := by omega
  unfold PostgresUserRepository.List
  rw [if_neg hnot]
  refine ⟨_, _, rfl, ?_, ?_, ?_, ?_⟩
  · exact List.Pairwise.map scanUser (fun a b hab => hab)
      (List.Pairwise.sublist (List.take_sublist _ _)
        (pairwise_sortRows (db.filter fun r => matchesFilter f r && matchesCursor c r)))
  · intro u hu cur hc
    subst hc
    obtain ⟨r, hr, rfl⟩ := List.mem_map.mp hu
    have hr2 : r ∈ db.filter fun x => matchesFilter f x && matchesCursor (some cur) x :=
      (mem_sortRows r _).mp (List.mem_of_mem_take hr)
    have hp := List.of_mem_filter hr2
    simp only [Bool.and_eq_true] at hp
    exact hp.2
  · intro hlen
    have hlim1 : (1 : Int) ≤ (if maxListLimit < limit then maxListLimit else limit) := by
      unfold maxListLimit
      split <;> omega
    have hne :
        (((sortRows (db.filter fun r => matchesFilter f r && matchesCursor c r)).take
          (if maxListLimit < limit then maxListLimit else limit).toNat).map scanUser) ≠ [] := by
      intro he
      rw [he] at hlen
      simp at hlen
      omega
    obtain ⟨lu, hlu⟩ := Option.isSome_iff_exists.mp (List.getLast?_isSome.mpr hne)
    rw [if_pos hlen, hlu]
    exact ⟨lu, rfl, rfl⟩
  · intro hlen
    rw [if_neg hlen]

/-- A five-user table in scrambled storage order. -/
def c4db : List Row :=
  [⟨[3], str "Cy", str "c@b.co", 1, 0, 0, none⟩,
   ⟨[1], str "Al", str "a@b.co", 1, 0, 0, none⟩,
   ⟨[5], str "Ed", str "e@b.co", 1, 0, 0, none⟩,
   ⟨[2], str "Bo", str "b@b.co", 1, 0, 0, none⟩,
   ⟨[4], str "Dy", str "d@b.co", 1, 0, 0, none⟩]

/-- Claim C4 witness: a cursor after id one and limit two over five users. -/
theorem c4_witness :
    ∃ users next,
      PostgresUserRepository.List c4db {} (some ⟨[1]⟩) 2 = .ok (users, next) ∧
      users.Pairwise (fun a b => strLe a.id b.id = true) ∧
      (∀ u ∈ users, ∀ cur, (some (⟨[1]⟩ : Cursor) : Option Cursor) = some cur →
        strLt cur.AfterID u.id = true) ∧
      ((users.length : Int) = (if maxListLimit < 2 then maxListLimit else 2) →
        ∃ lu, users.getLast? = some lu ∧ next = some ⟨lu.id⟩) ∧
      ((users.length : Int) ≠ (if maxListLimit < 2 then maxListLimit else 2) →
        next = none) :=
  c4_list_keyset_pagination c4db {} (some ⟨[1]⟩) 2 (by decide)
